import Mathlib

/-!
# Go-hitomi: the concurrent fetch-and-aggregate pipeline

A shallow embedding of `Go-hitomi.go`:

* `DownloadImage` (lines 61-72) as a pure function of the outcomes of the
  successive `fasthttp.Get` calls;
* the aggregation loop of `main` (lines 211-235) as a fold over the received
  `Result`s, with the outcome of each destination primitive supplied by the
  environment;
* the set-up and tear-down of `main` (lines 105-175 and 237-240);
* the goroutines of `main` (dispatcher, workers, completion watcher and the
  aggregation loop) as an interleaving step function over unbuffered channels.

What the program gets from outside is a parameter of the model: the outcomes of
the `fasthttp.Get` calls, the errors of the zip writer and of the file system,
the image list of the gallery.  The reporter goroutine (lines 186-190) receives
from `signals` for ever, so a send on `signals` always completes; the strings
sent are collected in order.  The Go `int`s `i`, `try` and `count` stay within
the range of `int` (`i < try`, and `count` is at most the number of Results
received), so they are modelled without wrap-around.
-/

namespace GoHitomi

/-! ## Data model -/

/-- A Go byte slice that is not nil is modelled by the list of its bytes. -/
abbrev Bytes := List Nat

/-- The struct `Result` (lines 26-30).  `Image` is a Go `[]byte`; the nil slice
is `none`. -/
structure Result where
  Image : Option Bytes
  ImgName : String
  WK_ID : Nat
  deriving DecidableEq, Repr

/-- What one call `fasthttp.Get(nil, url)` returns: status code, body and
error (`none` is a nil error). -/
structure FetchOutcome where
  stat : Int
  img : Bytes
  err : Option String
  deriving DecidableEq, Repr

/-- The condition of line 66: `stat == 200 && err == nil && len(img) != 0`. -/
def FetchOutcome.success (o : FetchOutcome) : Bool :=
  o.stat == 200 && o.err.isNone && o.img.length != 0

/-! ## DownloadImage (lines 61-72) -/

/-- The message of line 64, `fmt.Sprintf("Redownloading %s: #%d/%d", url, i+1, try)`. -/
def redownloadMsg (url : String) (attempt try_ : Int) : String :=
  "Redownloading " ++ url ++ ": #" ++ toString attempt ++ "/" ++ toString try_

/-- The message of line 70. -/
def failedMsg (url : String) : String :=
  "Download Failed: " ++ url

/-- What a call of `DownloadImage` did: the slice it returned (`none` is nil),
the strings it sent on `signal`, in order, and how many times it called
`fasthttp.Get`. -/
structure Download where
  img : Option Bytes
  signal : List String
  fetches : Nat
  deriving DecidableEq, Repr

/-- The `for i := 0; i < try; i++` loop of `DownloadImage`, entered with loop
variable `i`, with `rem` iterations left before `i < try` fails, `sig` the
messages sent so far.  `net n` is the outcome of the `fasthttp.Get` call made
after `n` earlier ones; iteration `i` makes call number `i`. -/
def DownloadImage.loop (url : String) (try_ : Int) (net : Nat → FetchOutcome) :
    Nat → Nat → List String → Download
  | 0, i, sig => ⟨none, sig ++ [failedMsg url], i⟩
  | rem + 1, i, sig =>
    let sig1 := if i != 0 then sig ++ [redownloadMsg url ((i : Int) + 1) try_] else sig
    if (net i).success then ⟨some (net i).img, sig1, i + 1⟩
    else DownloadImage.loop url try_ net rem (i + 1) sig1

/-- `DownloadImage(url, try, signal)`.  The loop runs `try` times when `try` is
positive and not at all otherwise. -/
def DownloadImage (url : String) (try_ : Int) (net : Nat → FetchOutcome) : Download :=
  DownloadImage.loop url try_ net try_.toNat 0 []

/-- The messages `DownloadImage` is expected to send when it makes `fetches`
attempts out of `k`: one "Redownloading" line for each attempt numbered
`2 .. fetches`. -/
def redownloadMsgs (url : String) (k : Int) (fetches : Nat) : List String :=
  (List.range' 2 (fetches - 1)).map (fun (a : Nat) => redownloadMsg url (a : Int) k)

/-- All of the first `k` fetch outcomes are failures. -/
def allFail (net : Nat → FetchOutcome) (k : Nat) : Bool :=
  (List.range k).all (fun n => !(net n).success)

/-! ## The aggregation loop of `main` (lines 211-235) -/

/-- What the destination primitives return while one `Result` is written:
`createErr` is the error of `zipWriter.Create` (archive mode only), `writeErr`
the error of `f.Write` (archive mode) or of `ioutil.WriteFile` (directory
mode); `none` is a nil error. -/
structure WriteOutcome where
  createErr : Option String
  writeErr : Option String
  deriving DecidableEq, Repr

/-- The variables of `main` that the aggregation loop reads and writes.
`count` is the Go `int` of line 211; it is bounded by the number of Results
received, so it is modelled without wrap-around.  `entries` is the content of
the destination: the archive entries in creation order (archive mode) or the
files below the gallery directory (directory mode), each with the bytes that
were written successfully.  `stdout` is what was printed.  `ctrlClosed` tells
whether the channel `ctrl` is closed, `ctrlCloses` how many times the statement
`close(ctrl)` was executed.  `panic` holds the value of a panic raised in
`main`; the deferred function of lines 99-103 recovers it and `main` returns. -/
structure AggState where
  count : Nat
  entries : List (String × Bytes)
  stdout : List String
  ctrlClosed : Bool
  ctrlCloses : Nat
  panic : Option String
  deriving DecidableEq, Repr

/-- The state at line 211, before the loop. -/
def AggState.init : AggState := ⟨0, [], [], false, 0, none⟩

/-- The run-time panic of calling a method on a nil interface value. -/
def nilDeref : String := "runtime error: invalid memory address or nil pointer dereference"

/-- The run-time panic of closing a closed channel. -/
def closeOfClosed : String := "close of closed channel"

/-- Output of `fmt.Println(err)`. -/
def printlnErr (e : String) : String := e ++ "\n"

/-- Output of `fmt.Printf("[worker %d] downloaded %s\n", r.WK_ID, r.ImgName)`. -/
def downloadedMsg (r : Result) : String :=
  "[worker " ++ toString r.WK_ID ++ "] downloaded " ++ r.ImgName ++ "\n"

/-- The bytes of a Go slice; the nil slice has none. -/
def sliceBytes (b : Option Bytes) : Bytes := b.getD []

/-- The effect of a successful `ioutil.WriteFile(path, data, 0644)`: the file is
created, or truncated when it exists, and holds `data`. -/
def writeFile (fs : List (String × Bytes)) (path : String) (data : Bytes) :
    List (String × Bytes) :=
  fs.filter (fun e => e.1 != path) ++ [(path, data)]

/-- Lines 213-230: the loop body from `count++` to the `Printf`, for the
received Result `r`.  In archive mode a failing `zipWriter.Create` returns a nil
`io.Writer` `f`; the error is printed and `f.Write` is then called on nil, which
panics. -/
def aggWrite (Do_Compression : Bool) (Gallery_Name : String) (r : Result) (io : WriteOutcome)
    (s : AggState) : AggState :=
  let s := { s with count := s.count + 1 }
  if Do_Compression then
    match io.createErr with
    | some e => { s with stdout := s.stdout ++ [printlnErr e], panic := some nilDeref }
    | none =>
      let s := { s with entries := s.entries ++ [(r.ImgName, [])] }
      let s :=
        match io.writeErr with
        | some e => { s with stdout := s.stdout ++ [printlnErr e] }
        | none => { s with entries := s.entries.dropLast ++ [(r.ImgName, sliceBytes r.Image)] }
      { s with stdout := s.stdout ++ [downloadedMsg r] }
  else
    let s :=
      match io.writeErr with
      | some e => { s with stdout := s.stdout ++ [printlnErr e] }
      | none =>
        { s with entries := writeFile s.entries (Gallery_Name ++ "/" ++ r.ImgName)
                   (sliceBytes r.Image) }
    { s with stdout := s.stdout ++ [downloadedMsg r] }

/-- Lines 232-234: `if count == num_lst { close(ctrl) }`.  Closing a closed
channel panics. -/
def aggCheck (num_lst : Nat) (s : AggState) : AggState :=
  if s.count == num_lst then
    if s.ctrlClosed then { s with ctrlCloses := s.ctrlCloses + 1, panic := some closeOfClosed }
    else { s with ctrlClosed := true, ctrlCloses := s.ctrlCloses + 1 }
  else s

/-- One iteration of the loop of lines 212-235. -/
def aggIter (Do_Compression : Bool) (Gallery_Name : String) (num_lst : Nat)
    (x : Result × WriteOutcome) (s : AggState) : AggState :=
  let s1 := aggWrite Do_Compression Gallery_Name x.1 x.2 s
  if s1.panic.isSome then s1 else aggCheck num_lst s1

/-- The loop `for r := range out` of lines 212-235 over the Results received,
each with the outcome of its destination primitives.  A panic ends it. -/
def aggLoop (Do_Compression : Bool) (Gallery_Name : String) (num_lst : Nat) :
    List (Result × WriteOutcome) → AggState → AggState
  | [], s => s
  | x :: rest, s =>
    let s1 := aggIter Do_Compression Gallery_Name num_lst x s
    if s1.panic.isSome then s1 else aggLoop Do_Compression Gallery_Name num_lst rest s1

/-- What the loop keeps true about `ctrl`: it is closed only once `count` has
reached `num_lst`, the statement `close(ctrl)` has run once if it is closed and
never otherwise, and no panic comes from closing it twice. -/
def CtrlInv (num_lst : Nat) (s : AggState) : Prop :=
  (s.ctrlClosed = true → num_lst ≤ s.count ∧ 1 ≤ num_lst ∧ s.ctrlCloses = 1) ∧
    (s.ctrlClosed = false → s.ctrlCloses = 0) ∧ s.panic ≠ some closeOfClosed

/-! ## Set-up and tear-down of `main` -/

/-- The flag variables of lines 84-96, after `flag.Parse()`. -/
structure Config where
  Gallery_ID : String
  Gallery_Name : String
  Do_Compression : Bool
  HTTPSvr : Bool
  RetryLimit : Int
  deriving DecidableEq, Repr

/-- What `main` gets from outside before the pipeline starts: the list that
`GetImageNamesFromID` returns, the outcome of `fasthttp.Get` for a url (used by
`testPrefix`), the two strings read by `fmt.Scanf`, and the result of
`os.OpenFile` (a file handle or an error). -/
structure Env where
  img_lst : List String
  get : String → FetchOutcome
  answer : String
  manualPrefix : String
  openFile : Except String Nat

/-- The url built at lines 33 and 77. -/
def imageUrl (pf galleryID img : String) : String :=
  "https://" ++ pf ++ ".hitomi.la/galleries/" ++ galleryID ++ "/" ++ img

/-- The function `testPrefix` (lines 32-41); `none` is a nil error. -/
def testPrefix (get : String → FetchOutcome) (pf galleryID img : String) : Option String :=
  match (get (imageUrl pf galleryID img)).err with
  | some e => some e
  | none =>
    if (get (imageUrl pf galleryID img)).stat != 200 then
      some (toString (get (imageUrl pf galleryID img)).stat)
    else none

/-- The run-time panic of `img_lst[0]` on an empty slice. -/
def indexOutOfRange : String := "runtime error: index out of range [0] with length 0"

/-- The loop of lines 136-144 over the remaining candidates.  Every iteration
evaluates `img_lst[0]`, which panics on an empty list.  The result is the value
of `imgPrefix` after the loop, or the panic. -/
def probePrefixes (get : String → FetchOutcome) (Gallery_ID : String) (img_lst : List String) :
    List String → Except String String
  | [] => .ok ""
  | pf :: rest =>
    match img_lst with
    | [] => .error indexOutOfRange
    | img0 :: _ =>
      match testPrefix get pf Gallery_ID img0 with
      | none => .ok pf
      | some _ => probePrefixes get Gallery_ID img_lst rest

/-- The destination variables of `main`.  `archiveFile` is the variable declared
at line 159 and `zipWriter` the one declared at line 160, holding the handle of
the file the zip writer writes to; `none` is nil.  `openFiles` lists the handles
returned by `os.OpenFile` that are not closed; `zipClosed` tells whether
`zipWriter.Close()` has run. -/
structure Dest where
  archiveFile : Option Nat
  zipWriter : Option Nat
  openFiles : List Nat
  zipClosed : Bool
  deriving DecidableEq, Repr

/-- Lines 159-175.  In compression mode line 164 is a short variable declaration
inside the `if` block: it declares a new `archiveFile` (and `err`) in the scope
of that block, and `zip.NewWriter` receives this inner variable.  The variable of
line 159 is not assigned.  A failing `os.OpenFile` ends the program with
`os.Exit(1)`, returned as the error. -/
def setupDest (Do_Compression : Bool) (openFile : Except String Nat) : Except Nat Dest :=
  let outer : Dest := ⟨none, none, [], false⟩
  if Do_Compression then
    match openFile with
    | .error _ => .error 1
    | .ok inner => .ok { outer with zipWriter := some inner, openFiles := [inner] }
  else .ok outer

/-- Lines 237-240: `zipWriter.Close()` and then `archiveFile.Close()` on the
variable of line 159.  `Close` on a nil `*os.File` returns `os.ErrInvalid` and
closes nothing; the returned error is discarded. -/
def finalizeDest (Do_Compression : Bool) (d : Dest) : Dest :=
  if Do_Compression then
    let d1 := { d with zipClosed := true }
    match d1.archiveFile with
    | none => d1
    | some f => { d1 with openFiles := d1.openFiles.erase f }
  else d

/-- What the pipeline of `main` is started with: the flags, the value of
`imgPrefix`, the item list and the number of workers (line 183). -/
structure Params where
  cfg : Config
  imgPrefix : String
  img_lst : List String
  NumWorkers : Nat

/-- How `main` gets on from line 105 to line 176. -/
inductive Start where
  | exit (code : Nat)
  | panic (msg : String)
  | pipeline (P : Params) (d : Dest)

/-- Lines 105-176 of `main`, console output left out: the check of `Gallery_ID`,
the default of `Gallery_Name`, the image list, the probe of the prefixes, the
manual prefix, and the set-up of the destination. -/
def mainStart (cfg : Config) (env : Env) : Start :=
  if cfg.Gallery_ID == "" then .exit 1
  else
    let cfg1 := if cfg.Gallery_Name == "" then { cfg with Gallery_Name := cfg.Gallery_ID } else cfg
    match probePrefixes env.get cfg1.Gallery_ID env.img_lst ["aa", "ba", "g"] with
    | .error msg => .panic msg
    | .ok found =>
      if found == "" && env.answer != "y" then .exit 0
      else
        let imgPrefix := if found == "" then env.manualPrefix else found
        match setupDest cfg1.Do_Compression env.openFile with
        | .error code => .exit code
        | .ok d => .pipeline ⟨cfg1, imgPrefix, env.img_lst, 10⟩ d

/-! ## The goroutines of `main` (lines 177-235) -/

/-- Where a worker goroutine (lines 193-196 running `DownloadWorker`) stands:
blocked at `range jobs`; holding job `j` and evaluating the operand
`DownloadImage(...)` of the send; blocked in the `select` with the Result `r`;
returned from `DownloadWorker`; or past `wg.Done()`. -/
inductive WState where
  | waitJob
  | fetching (j : String)
  | selecting (r : Result)
  | returned
  | done
  deriving DecidableEq, Repr

/-- Where the loop `for r := range out` of `main` stands: blocked receiving, at
the test of line 232, or ended. -/
inductive LoopPc where
  | receiving
  | checking
  | ended
  deriving DecidableEq, Repr

/-- State of the pipeline.  `next` is the index of the item the dispatcher
(lines 204-209) sends next; `jobsClosed` and `outClosed` tell whether `jobs` and
`out` are closed; `workers` holds worker `n` at position `n`; `pc` and `agg`
are the aggregation loop; `signals` is what the reporter (lines 186-190) has
received; `calls` records the arguments `(url, try)` of every call of
`DownloadImage`; `dropped` the Results abandoned at `case <-ctrl`. -/
structure PState where
  next : Nat
  jobsClosed : Bool
  workers : List WState
  outClosed : Bool
  pc : LoopPc
  agg : AggState
  signals : List String
  calls : List (String × Int)
  dropped : List Result
  deriving DecidableEq, Repr

/-- The state at line 211, all goroutines started. -/
def PState.init (P : Params) : PState :=
  ⟨0, false, List.replicate P.NumWorkers .waitJob, false, .receiving, AggState.init, [], [], []⟩

/-- The steps of the pipeline.  The channels `jobs` and `out` are unbuffered, so
a send and its receive are one step.
* `handoff w`: the dispatcher sends `img_lst[next]` on `jobs` and worker `w` receives it;
* `closeJobs`: the dispatcher, past its loop, closes `jobs`;
* `jobsDone w`: worker `w` finds `jobs` closed, its loop ends and `DownloadWorker` returns;
* `download w net`: worker `w` evaluates `DownloadImage`, `net` being the
  outcomes of its `fasthttp.Get` calls;
* `deliver w io`: the `select` of worker `w` takes `out <- r`, `main` receives
  `r` and runs lines 213-230, `io` being the outcomes of the destination primitives;
* `cancel w`: the `select` of worker `w` takes `<-ctrl` and the worker returns;
* `wgDone w`: worker `w` calls `wg.Done()`;
* `closeOut`: `wg.Wait()` returns in the watcher (lines 199-202), which closes `out`;
* `check`: `main` runs lines 232-234;
* `loopEnd`: `main` finds `out` closed and leaves the loop. -/
inductive Action where
  | handoff (w : Nat)
  | closeJobs
  | jobsDone (w : Nat)
  | download (w : Nat) (net : Nat → FetchOutcome)
  | deliver (w : Nat) (io : WriteOutcome)
  | cancel (w : Nat)
  | wgDone (w : Nat)
  | closeOut
  | check
  | loopEnd

/-- The worker has called `wg.Done()`. -/
def WState.isDone : WState → Bool
  | .done => true
  | _ => false

/-- One step of the pipeline; `none` when the action is not enabled.  After a
panic in `main` the program has ended and nothing is enabled. -/
def step (P : Params) (a : Action) (s : PState) : Option PState :=
  if s.agg.panic.isSome then none
  else
    match a with
    | .handoff w =>
      match P.img_lst[s.next]?, s.workers[w]? with
      | some j, some .waitJob =>
        some { s with next := s.next + 1, workers := s.workers.set w (.fetching j) }
      | _, _ => none
    | .closeJobs =>
      if s.next == P.img_lst.length && !s.jobsClosed then some { s with jobsClosed := true }
      else none
    | .jobsDone w =>
      match s.workers[w]? with
      | some .waitJob =>
        if s.jobsClosed then some { s with workers := s.workers.set w .returned } else none
      | _ => none
    | .download w net =>
      match s.workers[w]? with
      | some (.fetching j) =>
        let url := imageUrl P.imgPrefix P.cfg.Gallery_ID j
        let d := DownloadImage url P.cfg.RetryLimit net
        some { s with workers := s.workers.set w (.selecting ⟨d.img, j, w⟩),
                      signals := s.signals ++ d.signal,
                      calls := s.calls ++ [(url, P.cfg.RetryLimit)] }
      | _ => none
    | .deliver w io =>
      match s.workers[w]?, s.pc with
      | some (.selecting r), .receiving =>
        some { s with workers := s.workers.set w .waitJob, pc := .checking,
                      agg := aggWrite P.cfg.Do_Compression P.cfg.Gallery_Name r io s.agg }
      | _, _ => none
    | .cancel w =>
      match s.workers[w]? with
      | some (.selecting r) =>
        if s.agg.ctrlClosed then
          some { s with workers := s.workers.set w .returned, dropped := s.dropped ++ [r] }
        else none
      | _ => none
    | .wgDone w =>
      match s.workers[w]? with
      | some .returned => some { s with workers := s.workers.set w .done }
      | _ => none
    | .closeOut =>
      if s.workers.all WState.isDone && !s.outClosed then some { s with outClosed := true }
      else none
    | .check =>
      match s.pc with
      | .checking => some { s with pc := .receiving, agg := aggCheck P.img_lst.length s.agg }
      | _ => none
    | .loopEnd =>
      match s.pc with
      | .receiving => if s.outClosed then some { s with pc := .ended } else none
      | _ => none

/-- The states the pipeline can reach from line 211. -/
inductive Reachable (P : Params) : PState → Prop where
  | init : Reachable P (PState.init P)
  | step {s s1 : PState} (a : Action) : Reachable P s → step P a s = some s1 → Reachable P s1

/-- The state after a list of actions performed in order. -/
def run (P : Params) : List Action → PState → Option PState
  | [], s => some s
  | a :: rest, s => (step P a s).bind (run P rest)

/-- No action is enabled. -/
def Stuck (P : Params) (s : PState) : Prop := ∀ a, step P a s = none

/-- The pipeline has shut down in order: every worker has returned and called
`wg.Done()`, `out` is closed, and the loop of `main` has ended without a panic. -/
def Final (s : PState) : Prop :=
  (∀ x ∈ s.workers, x = WState.done) ∧ s.outClosed = true ∧ s.pc = .ended ∧
    s.agg.panic = none

/-- A bound on the number of steps the pipeline can still make. -/
def wmeasure : WState → Nat
  | .waitJob => 2
  | .fetching _ => 5
  | .selecting _ => 4
  | .returned => 1
  | .done => 0

/-- See `wmeasure`. -/
def pcmeasure : LoopPc → Nat
  | .receiving => 1
  | .checking => 2
  | .ended => 0

/-- See `wmeasure`. -/
def measure (P : Params) (s : PState) : Nat :=
  4 * (P.img_lst.length - s.next) + (s.workers.map wmeasure).sum + pcmeasure s.pc
    + (if s.jobsClosed then 0 else 1) + (if s.outClosed then 0 else 1)

/-- The worker holds a job: it is fetching or has a Result to deliver. -/
def WState.busy : WState → Nat
  | .fetching _ => 1
  | .selecting _ => 1
  | _ => 0

/-! ## Concrete inputs -/

/-- Outcomes used in the examples: the first fetch returns status 503, the later
ones return status 200 and the body `[1]`. -/
def netSecond : Nat → FetchOutcome :=
  fun n => if n = 0 then ⟨503, [], none⟩ else ⟨200, [1], none⟩

/-- Outcomes used in the examples: every fetch returns status 404. -/
def netNever : Nat → FetchOutcome :=
  fun _ => ⟨404, [], none⟩

/-- Outcomes used in the examples: every fetch returns status 200 and the body
`[1]`. -/
def netAlways : Nat → FetchOutcome :=
  fun _ => ⟨200, [1], none⟩

/-- A Result with a nil image, as produced when every retry failed. -/
def failedResult : Result := ⟨none, "x.jpg", 0⟩

/-- A Result with the image `[7, 8]`. -/
def goodResult : Result := ⟨some [7, 8], "b.jpg", 1⟩

/-- All destination primitives succeed. -/
def writeOk : WriteOutcome := ⟨none, none⟩

/-- The call `zipWriter.Create` fails because the archive file cannot be
written. -/
def createFails : WriteOutcome := ⟨some "write 123.zip: no space left on device", none⟩

/-- The flags `-i 123 -r 0`, the other flags at their defaults. -/
def cfgRetryZero : Config := ⟨"123", "", true, false, 0⟩

/-- An environment in which the gallery has the single image `x.jpg`, every
`fasthttp.Get` of `testPrefix` returns status 200, and `os.OpenFile` returns the
handle 3. -/
def envOne : Env := ⟨["x.jpg"], fun _ => ⟨200, [1], none⟩, "", "", .ok 3⟩

/-- The environment `envOne` with an empty image list, as `GetImageNamesFromID`
returns when the gallery script cannot be fetched or parsed. -/
def envEmpty : Env := { envOne with img_lst := [] }

/-- The pipeline parameters `main` starts with for `cfgRetryZero` and `envOne`. -/
def paramsRetryZero : Params := ⟨{ cfgRetryZero with Gallery_Name := "123" }, "aa", ["x.jpg"], 10⟩

/-- What every reachable state of the pipeline satisfies.
* `hcount`: every job handed to a worker is held by a worker, was received by
  `main`, or was dropped;
* `hnext`: the dispatcher stays within the list;
* `hctrl`: `ctrl` is closed only when `main` has received as many Results as
  there are items, and `main` is then not at line 232;
* `hdrop`: no Result was dropped;
* `hout`: `out` is closed only when every worker is done;
* `hend`: the loop of `main` ends only when `out` is closed;
* `hpanic`: `main` has not panicked when `ctrl` is closed;
* `hcalls`: every call of `DownloadImage` got the retry limit of the flags;
* `hjobs`: `jobs` is closed only when every item was sent;
* `hret`: a worker returns only when `jobs` is closed;
* `hlen`: there are `NumWorkers` workers. -/
structure Inv (P : Params) (s : PState) : Prop where
  hcount : s.agg.count + (s.workers.map WState.busy).sum + s.dropped.length = s.next
  hnext : s.next ≤ P.img_lst.length
  hctrl : s.agg.ctrlClosed = true → s.agg.count = P.img_lst.length ∧ s.pc ≠ .checking
  hdrop : s.dropped = []
  hout : s.outClosed = true → ∀ x ∈ s.workers, x = WState.done
  hend : s.pc = .ended → s.outClosed = true
  hpanic : s.agg.ctrlClosed = true → s.agg.panic = none
  hcalls : ∀ c ∈ s.calls, c.2 = P.cfg.RetryLimit
  hjobs : s.jobsClosed = true → s.next = P.img_lst.length
  hret : ∀ x ∈ s.workers, x = WState.returned ∨ x = WState.done → s.jobsClosed = true
  hlen : s.workers.length = P.NumWorkers

/-- The pipeline for the single item `x.jpg` with two workers, retry limit 2
and an archive as destination. -/
def paramsTwo : Params := ⟨⟨"123", "123", true, false, 2⟩, "aa", ["x.jpg"], 2⟩

/-- Worker 0 takes the only job, both of its fetches fail, `main` receives the
Result and closes `ctrl`.  Worker 1 is blocked at `range jobs` all along. -/
def actsToClose : List Action :=
  [.handoff 0, .download 0 netNever, .deliver 0 writeOk, .check]

/-- The shutdown after `actsToClose`. -/
def actsToEnd : List Action :=
  [.closeJobs, .jobsDone 1, .jobsDone 0, .wgDone 0, .wgDone 1, .closeOut, .loopEnd]

/-- The state of `paramsTwo` after `actsToClose`. -/
def stateCancelled : PState :=
  { next := 1, jobsClosed := false, workers := [.waitJob, .waitJob], outClosed := false,
    pc := .receiving,
    agg := ⟨1, [("x.jpg", [])], ["[worker 0] downloaded x.jpg\n"], true, 1, none⟩,
    signals := ["Redownloading https://aa.hitomi.la/galleries/123/x.jpg: #2/2",
                "Download Failed: https://aa.hitomi.la/galleries/123/x.jpg"],
    calls := [("https://aa.hitomi.la/galleries/123/x.jpg", 2)],
    dropped := [] }

/-- The state of `paramsTwo` after `actsToClose` and `actsToEnd`. -/
def stateEnded : PState :=
  { stateCancelled with jobsClosed := true, workers := [.done, .done], outClosed := true,
                        pc := .ended }

/-- The state of `paramsRetryZero` after worker 0 took the job and called
`DownloadImage`, every fetch of which would have succeeded. -/
def stateRetryZero : PState :=
  { next := 1, jobsClosed := false,
    workers := [.selecting ⟨none, "x.jpg", 0⟩, .waitJob, .waitJob, .waitJob, .waitJob, .waitJob,
                .waitJob, .waitJob, .waitJob, .waitJob],
    outClosed := false, pc := .receiving, agg := AggState.init,
    signals := ["Download Failed: https://aa.hitomi.la/galleries/123/x.jpg"],
    calls := [("https://aa.hitomi.la/galleries/123/x.jpg", 0)],
    dropped := [] }

/-- The outcome of `mainStart` with the retry limit of the started pipeline
replaced by `r`. -/
def Start.withRetryLimit (r : Int) : Start → Start
  | .pipeline P d => .pipeline { P with cfg := { P.cfg with RetryLimit := r } } d
  | .exit code => .exit code
  | .panic msg => .panic msg

/-! # Theorems -/

/-! ## Properties of DownloadImage -/

theorem DownloadImage.loop_fetches_ge (url : String) (try_ : Int) (net : Nat → FetchOutcome)
    (rem i : Nat) (sig : List String) :
    i ≤ (DownloadImage.loop url try_ net rem i sig).fetches := by
  induction rem generalizing i sig with
  | zero => simp [DownloadImage.loop]
  | succ rem ih =>
    simp only [DownloadImage.loop]
    split
    · simp
    · exact Nat.le_trans (Nat.le_succ i) (ih _ _)

theorem DownloadImage.loop_fetches_le (url : String) (try_ : Int) (net : Nat → FetchOutcome)
    (rem i : Nat) (sig : List String) :
    (DownloadImage.loop url try_ net rem i sig).fetches ≤ i + rem := by
  induction rem generalizing i sig with
  | zero => simp [DownloadImage.loop]
  | succ rem ih =>
    simp only [DownloadImage.loop]
    split
    · simp
    · have := ih (i + 1) (if i != 0 then sig ++ [redownloadMsg url ((i : Int) + 1) try_] else sig)
      omega

theorem DownloadImage.loop_img_none (url : String) (try_ : Int) (net : Nat → FetchOutcome)
    (rem i : Nat) (sig : List String) :
    (DownloadImage.loop url try_ net rem i sig).img = none ↔
      ∀ n, i ≤ n → n < i + rem → (net n).success = false := by
  induction rem generalizing i sig with
  | zero =>
    simp only [DownloadImage.loop, true_iff]
    intro n h1 h2; omega
  | succ rem ih =>
    simp only [DownloadImage.loop]
    split
    · rename_i hs
      simp only [reduceCtorEq, false_iff, not_forall]
      exact ⟨i, Nat.le_refl i, by omega, by simp [hs]⟩
    · rename_i hs
      rw [ih]
      constructor
      · intro h n h1 h2
        rcases Nat.eq_or_lt_of_le h1 with h3 | h3
        · subst h3; simpa using hs
        · exact h n h3 (by omega)
      · intro h n h1 h2
        exact h n (by omega) (by omega)

theorem DownloadImage.loop_first_success (url : String) (try_ : Int) (net : Nat → FetchOutcome)
    (rem i : Nat) (sig : List String) (n : Nat) (h1 : i ≤ n) (h2 : n < i + rem)
    (hs : (net n).success = true) (hf : ∀ m, i ≤ m → m < n → (net m).success = false) :
    (DownloadImage.loop url try_ net rem i sig).img = some (net n).img ∧
      (DownloadImage.loop url try_ net rem i sig).fetches = n + 1 := by
  induction rem generalizing i sig with
  | zero => omega
  | succ rem ih =>
    simp only [DownloadImage.loop]
    rcases Nat.eq_or_lt_of_le h1 with h3 | h3
    · subst h3; simp [hs]
    · have hi : (net i).success = false := hf i (Nat.le_refl i) h3
      simp only [hi, Bool.false_eq_true, if_false]
      exact ih (i + 1) _ h3 (by omega) (fun m hm1 hm2 => hf m (by omega) hm2)

theorem DownloadImage.loop_signal (url : String) (try_ : Int) (net : Nat → FetchOutcome)
    (rem i : Nat) (sig : List String) (hi : 1 ≤ i) :
    (DownloadImage.loop url try_ net rem i sig).signal =
      sig ++ (List.range' (i + 1) ((DownloadImage.loop url try_ net rem i sig).fetches - i)).map
          (fun (a : Nat) => redownloadMsg url (a : Int) try_)
        ++ (if (DownloadImage.loop url try_ net rem i sig).img = none then [failedMsg url]
            else []) := by
  induction rem generalizing i sig with
  | zero => simp [DownloadImage.loop]
  | succ rem ih =>
    have hi0 : (i != 0) = true := by simp; omega
    simp only [DownloadImage.loop, hi0, if_true]
    split
    · simp [List.range']
    · rw [ih (i + 1) _ (by omega)]
      have hge := DownloadImage.loop_fetches_ge url try_ net rem (i + 1)
        (sig ++ [redownloadMsg url ((i : Int) + 1) try_])
      obtain ⟨c, hc⟩ : ∃ c, (DownloadImage.loop url try_ net rem (i + 1)
          (sig ++ [redownloadMsg url ((i : Int) + 1) try_])).fetches = i + 1 + c :=
        ⟨_, (Nat.add_sub_cancel' hge).symm⟩
      rw [hc]
      have e1 : i + 1 + c - (i + 1) = c := by omega
      have e2 : i + 1 + c - i = c + 1 := by omega
      rw [e1, e2]
      simp [List.range', List.append_assoc]

theorem allFail_iff (net : Nat → FetchOutcome) (k : Nat) :
    allFail net k = true ↔ ∀ n, n < k → (net n).success = false := by
  simp [allFail]

theorem DownloadImage_img_none (url : String) (k : Nat) (net : Nat → FetchOutcome) :
    (DownloadImage url k net).img = none ↔ allFail net k = true := by
  rw [allFail_iff, DownloadImage, DownloadImage.loop_img_none]
  simp

theorem DownloadImage_signal (url : String) (k : Nat) (net : Nat → FetchOutcome) :
    (DownloadImage url k net).signal =
      redownloadMsgs url k (DownloadImage url k net).fetches ++
        (if allFail net k then [failedMsg url] else []) := by
  have himg := DownloadImage_img_none url k net
  unfold DownloadImage redownloadMsgs at *
  simp only [Int.toNat_ofNat] at *
  cases k with
  | zero => simp [DownloadImage.loop, allFail]
  | succ k =>
    simp only [DownloadImage.loop] at *
    split at himg
    · rename_i hs
      have : allFail net (k + 1) = false := by
        rw [Bool.eq_false_iff]; intro h
        rw [allFail_iff] at h
        rw [h 0 (by omega)] at hs; cases hs
      simp [hs, this]
    · rename_i hs
      simp only [hs, Bool.false_eq_true, if_false, bne_self_eq_false]
      rw [DownloadImage.loop_signal url _ net k 1 [] (Nat.le_refl 1)]
      simp only [List.nil_append, Nat.zero_add, bne_self_eq_false, Bool.false_eq_true,
        if_false] at *
      congr 1
      by_cases h : allFail net (k + 1) = true
      · rw [if_pos h, if_pos (himg.mpr h)]
      · rw [if_neg h, if_neg (fun hn => h (himg.mp hn))]

theorem FetchOutcome.success_iff (o : FetchOutcome) :
    o.success = true ↔ o.stat = 200 ∧ o.err = none ∧ o.img ≠ [] := by
  cases o with
  | mk stat img err =>
    cases err <;> cases img <;> simp [FetchOutcome.success]

theorem redownloadMsg_two (url : String) :
    redownloadMsg url 2 2 = "Redownloading " ++ url ++ ": #2/2" := by
  have h : toString (2 : Int) = "2" := by decide
  simp only [redownloadMsg, h, String.append_assoc]
  rfl

/-- C1: for every url, every `k ≥ 1` and every sequence `net` of fetch outcomes,
`DownloadImage(url, k, signal)` makes at most `k` fetches; an attempt is a success
exactly when its status is 200, its error is nil and its body is not empty; when
attempt `n` is the first success the body of attempt `n` is returned and exactly
`n + 1` fetches were made (none after the success); and nil is returned if and
only if all `k` attempts fail. -/
theorem DownloadImage_attempts (url : String) (k : Nat) (hk : 1 ≤ k)
    (net : Nat → FetchOutcome) :
    (DownloadImage url k net).fetches ≤ k ∧
    (∀ o : FetchOutcome, o.success = true ↔ o.stat = 200 ∧ o.err = none ∧ o.img ≠ []) ∧
    (∀ n, n < k → (net n).success = true → (∀ m, m < n → (net m).success = false) →
      (DownloadImage url k net).img = some (net n).img ∧
        (DownloadImage url k net).fetches = n + 1) ∧
    ((DownloadImage url k net).img = none ↔ ∀ n, n < k → (net n).success = false) := by
  have _ := hk
  refine ⟨?_, FetchOutcome.success_iff, ?_, ?_⟩
  · have := DownloadImage.loop_fetches_le url k net k 0 []
    simpa [DownloadImage] using this
  · intro n hn hs hf
    have := DownloadImage.loop_first_success url k net k 0 [] n (Nat.zero_le n) (by omega) hs
      (fun m _ hm => hf m hm)
    simpa [DownloadImage] using this
  · rw [DownloadImage_img_none, allFail_iff]

theorem DownloadImage_attempts_witness :
    1 ≤ 2 ∧ (DownloadImage "u" 2 netSecond).img = some [1] ∧
      (DownloadImage "u" 2 netSecond).fetches = 2 :=
  ⟨by decide,
    (DownloadImage_attempts "u" 2 (by decide) netSecond).2.2.1 1 (by decide) (by decide)
      (by decide)⟩

theorem redownloadMsg_eq (url : String) (a k : Nat) :
    redownloadMsg url (a : Int) (k : Int)
      = "Redownloading " ++ url ++ ": #" ++ toString a ++ "/" ++ toString k := by
  rfl

/-- C2: for every url and every `k ≥ 1` the messages `DownloadImage` sends on
`signal` are, in order, the text "Redownloading url: #a/k" (with `a` and `k` in
decimal) for each attempt `a` from 2 to the number of attempts made, followed by
"Download Failed: url" exactly when all `k` attempts fail.  When the first
attempt succeeds nothing is sent; with `k = 2` and two failures exactly the two
messages "Redownloading url: #2/2" and "Download Failed: url" are sent. -/
theorem DownloadImage_events (url : String) (k : Nat) (hk : 1 ≤ k)
    (net : Nat → FetchOutcome) :
    (DownloadImage url k net).signal =
      (List.range' 2 ((DownloadImage url k net).fetches - 1)).map
          (fun a => "Redownloading " ++ url ++ ": #" ++ toString a ++ "/" ++ toString k)
        ++ (if allFail net k then ["Download Failed: " ++ url] else []) ∧
    ((net 0).success = true → (DownloadImage url k net).signal = []) ∧
    (k = 2 → (net 0).success = false → (net 1).success = false →
      (DownloadImage url k net).signal =
        ["Redownloading " ++ url ++ ": #2/2", "Download Failed: " ++ url]) := by
  have hsig := DownloadImage_signal url k net
  unfold redownloadMsgs failedMsg at hsig
  have hfun : (fun a : Nat => redownloadMsg url (a : Int) (k : Int)) =
      fun a : Nat => "Redownloading " ++ url ++ ": #" ++ toString a ++ "/" ++ toString k :=
    funext (fun a => redownloadMsg_eq url a k)
  rw [hfun] at hsig
  refine ⟨hsig, ?_, ?_⟩
  · intro h0
    have hf := (DownloadImage.loop_first_success url k net k 0 [] 0 (Nat.le_refl 0) (by omega)
      h0 (fun m _ hm => absurd hm (Nat.not_lt_zero m))).2
    have hall : allFail net k = false := by
      rw [Bool.eq_false_iff]; intro h
      rw [allFail_iff] at h
      rw [h 0 (by omega)] at h0; cases h0
    rw [hsig]
    unfold DownloadImage
    simp only [Int.toNat_ofNat]
    rw [hf, hall]
    rfl
  · intro h2 h0 h1
    subst h2
    have hall : allFail net 2 = true := by
      rw [allFail_iff]; intro n hn
      match n, hn with
      | 0, _ => exact h0
      | 1, _ => exact h1
    simp [DownloadImage, DownloadImage.loop, h0, h1, failedMsg, ← redownloadMsg_two]

theorem DownloadImage_events_witness :
    1 ≤ 3 ∧ (DownloadImage "x.jpg" 3 netNever).signal =
      ["Redownloading x.jpg: #2/3", "Redownloading x.jpg: #3/3", "Download Failed: x.jpg"] :=
  ⟨by decide, (DownloadImage_events "x.jpg" 3 (by decide) netNever).1.trans (by decide)⟩

/-! ## Properties of the aggregation loop -/

theorem aggWrite_count (dc : Bool) (gn : String) (r : Result) (io : WriteOutcome)
    (s : AggState) : (aggWrite dc gn r io s).count = s.count + 1 := by
  unfold aggWrite
  cases dc <;> cases hc : io.createErr <;> cases hw : io.writeErr <;> simp

theorem aggWrite_ctrl (dc : Bool) (gn : String) (r : Result) (io : WriteOutcome)
    (s : AggState) :
    (aggWrite dc gn r io s).ctrlClosed = s.ctrlClosed ∧
      (aggWrite dc gn r io s).ctrlCloses = s.ctrlCloses := by
  unfold aggWrite
  cases dc <;> cases hc : io.createErr <;> cases hw : io.writeErr <;> simp

theorem aggWrite_panic (dc : Bool) (gn : String) (r : Result) (io : WriteOutcome)
    (s : AggState) :
    (aggWrite dc gn r io s).panic = s.panic ∨ (aggWrite dc gn r io s).panic = some nilDeref := by
  unfold aggWrite
  cases dc <;> cases hc : io.createErr <;> cases hw : io.writeErr <;> simp

/-- The aggregation loop never panics on a Result whose `zipWriter.Create`
succeeds (or in directory mode): a failing write is printed and the loop goes on. -/
theorem aggWrite_panic_of_create_ok (dc : Bool) (gn : String) (r : Result) (io : WriteOutcome)
    (s : AggState) (h : dc = false ∨ io.createErr = none) :
    (aggWrite dc gn r io s).panic = s.panic := by
  unfold aggWrite
  rcases h with h | h
  · subst h; cases hw : io.writeErr <;> simp
  · rw [h]; cases dc <;> cases hw : io.writeErr <;> simp

theorem CtrlInv_init (num_lst : Nat) : CtrlInv num_lst AggState.init := by
  simp [CtrlInv, AggState.init]

theorem CtrlInv_aggIter (dc : Bool) (gn : String) (num_lst : Nat) (x : Result × WriteOutcome)
    (s : AggState) (h : CtrlInv num_lst s) : CtrlInv num_lst (aggIter dc gn num_lst x s) := by
  obtain ⟨h1, h2, h3⟩ := h
  have hc := aggWrite_count dc gn x.1 x.2 s
  obtain ⟨hcl, hcs⟩ := aggWrite_ctrl dc gn x.1 x.2 s
  have hp := aggWrite_panic dc gn x.1 x.2 s
  have hp3 : (aggWrite dc gn x.1 x.2 s).panic ≠ some closeOfClosed := by
    rcases hp with hp | hp
    · rw [hp]; exact h3
    · rw [hp]; simp [nilDeref, closeOfClosed]
  unfold aggIter
  simp only
  split
  · refine ⟨?_, ?_, hp3⟩
    · intro hh; rw [hcl] at hh; rw [hc, hcs]
      have := h1 hh; omega
    · intro hh; rw [hcl] at hh; rw [hcs]; exact h2 hh
  · unfold aggCheck
    by_cases heq : (aggWrite dc gn x.1 x.2 s).count = num_lst
    · have hb : ((aggWrite dc gn x.1 x.2 s).count == num_lst) = true := by simp [heq]
      rw [if_pos hb]
      cases hcc : s.ctrlClosed with
      | true =>
        have := h1 hcc
        omega
      | false =>
        have hcl2 : (aggWrite dc gn x.1 x.2 s).ctrlClosed = false := by rw [hcl, hcc]
        simp only [hcl2, Bool.false_eq_true, if_false]
        have h0 := h2 hcc
        refine ⟨fun _ => ⟨?_, ?_, ?_⟩, fun hh => ?_, hp3⟩
        · show num_lst ≤ (aggWrite dc gn x.1 x.2 s).count
          omega
        · omega
        · show (aggWrite dc gn x.1 x.2 s).ctrlCloses + 1 = 1
          omega
        · exact absurd hh (by simp)
    · have hb : ((aggWrite dc gn x.1 x.2 s).count == num_lst) = false := by simp [heq]
      rw [hb]
      simp only [Bool.false_eq_true, if_false]
      refine ⟨?_, ?_, hp3⟩
      · intro hh; rw [hcl] at hh; rw [hc, hcs]
        have := h1 hh; omega
      · intro hh; rw [hcl] at hh; rw [hcs]; exact h2 hh

theorem CtrlInv_aggLoop (dc : Bool) (gn : String) (num_lst : Nat)
    (rs : List (Result × WriteOutcome)) (s : AggState) (h : CtrlInv num_lst s) :
    CtrlInv num_lst (aggLoop dc gn num_lst rs s) := by
  induction rs generalizing s with
  | nil => exact h
  | cons x rest ih =>
    simp only [aggLoop]
    split
    · exact CtrlInv_aggIter dc gn num_lst x s h
    · exact ih _ (CtrlInv_aggIter dc gn num_lst x s h)

theorem CtrlInv_closes_le (num_lst : Nat) (s : AggState) (h : CtrlInv num_lst s) :
    s.ctrlCloses ≤ 1 ∧ (num_lst = 0 → s.ctrlCloses = 0) := by
  obtain ⟨h1, h2, _⟩ := h
  cases hc : s.ctrlClosed with
  | true => have := h1 hc; omega
  | false => have := h2 hc; omega

theorem aggIter_count (dc : Bool) (gn : String) (num_lst : Nat) (x : Result × WriteOutcome)
    (s : AggState) : (aggIter dc gn num_lst x s).count = s.count + 1 := by
  have hc := aggWrite_count dc gn x.1 x.2 s
  unfold aggIter aggCheck
  simp only
  split
  · exact hc
  · split
    · split <;> exact hc
    · exact hc

/-- C10: for every sequence of Results, every outcome of the destination
primitives and every `num_lst`, each iteration of the aggregation loop adds
exactly one to `count`, the statement `close(ctrl)` is executed at most once, no
panic "close of closed channel" arises, and with `num_lst = 0` it is never
executed. -/
theorem ctrl_closed_at_most_once (dc : Bool) (gn : String) (num_lst : Nat)
    (rs : List (Result × WriteOutcome)) :
    (∀ x s, (aggIter dc gn num_lst x s).count = s.count + 1) ∧
    (aggLoop dc gn num_lst rs AggState.init).ctrlCloses ≤ 1 ∧
    (aggLoop dc gn num_lst rs AggState.init).panic ≠ some closeOfClosed ∧
    (num_lst = 0 → (aggLoop dc gn num_lst rs AggState.init).ctrlCloses = 0 ∧
      (aggLoop dc gn num_lst rs AggState.init).ctrlClosed = false) := by
  have h := CtrlInv_aggLoop dc gn num_lst rs AggState.init (CtrlInv_init num_lst)
  have h2 := CtrlInv_closes_le num_lst _ h
  refine ⟨aggIter_count dc gn num_lst, h2.1, h.2.2, fun h0 => ⟨h2.2 h0, ?_⟩⟩
  cases hc : (aggLoop dc gn num_lst rs AggState.init).ctrlClosed with
  | false => rfl
  | true => have := h.1 hc; omega

/-- The aggregation loop in directory mode, and in archive mode when no
`zipWriter.Create` fails, processes every Result: a failing write is printed,
no panic arises and `count` advances by one for each Result. -/
theorem aggLoop_count_of_create_ok (dc : Bool) (gn : String) (num_lst : Nat)
    (rs : List (Result × WriteOutcome)) (s : AggState) (hs : CtrlInv num_lst s)
    (hp : s.panic = none) (h : dc = false ∨ ∀ x ∈ rs, x.2.createErr = none) :
    (aggLoop dc gn num_lst rs s).panic = none ∧
      (aggLoop dc gn num_lst rs s).count = s.count + rs.length := by
  induction rs generalizing s with
  | nil => exact ⟨hp, rfl⟩
  | cons x rest ih =>
    have hw : (aggWrite dc gn x.1 x.2 s).panic = none := by
      rw [aggWrite_panic_of_create_ok dc gn x.1 x.2 s
        (h.imp id (fun h => h x (List.mem_cons_self x rest)))]
      exact hp
    have hinv := CtrlInv_aggIter dc gn num_lst x s hs
    have hcnt := aggIter_count dc gn num_lst x s
    have hi : (aggIter dc gn num_lst x s).panic = none := by
      have h3 := hinv.2.2
      unfold aggIter aggCheck at h3 ⊢
      simp only [hw, Option.isSome_none, Bool.false_eq_true, if_false] at h3 ⊢
      split
      · split
        · rename_i h1 h2
          simp only [h1, h2, if_true] at h3
          exact absurd rfl h3
        · rfl
      · exact hw
    simp only [aggLoop, hi, Option.isSome_none, Bool.false_eq_true, if_false]
    have := ih _ hinv hi (h.imp id (fun h y hy => h y (List.mem_cons_of_mem x hy)))
    rw [this.2, hcnt, List.length_cons]
    exact ⟨this.1, by omega⟩

theorem C3_counterexample :
    run paramsTwo actsToClose (PState.init paramsTwo) = some stateCancelled ∧
    run paramsTwo actsToEnd stateCancelled = some stateEnded ∧
    stateCancelled.signals =
      ["Redownloading https://aa.hitomi.la/galleries/123/x.jpg: #2/2",
       "Download Failed: https://aa.hitomi.la/galleries/123/x.jpg"] ∧
    stateEnded.agg.entries = [("x.jpg", [])] ∧
    (aggLoop true "g" 1 [(failedResult, writeOk)] AggState.init).entries = [("x.jpg", [])] ∧
    (aggLoop false "g" 1 [(failedResult, writeOk)] AggState.init).entries
      = [("g/x.jpg", [])] := by
  refine ⟨?_, ?_, ?_, ?_, ?_, ?_⟩ <;> decide

/-- C3 (amended): a Result with a nil image is written like any other.  When
the destination primitives succeed the loop body adds an entry named by the
item with no bytes: a new archive entry in archive mode, the file
`Gallery_Name/ImgName` in directory mode.  So the run whose single Result is the
failed item "x.jpg" leaves a destination with exactly one, empty, entry. -/
theorem absent_payload_written_empty (gn name : String) (wk : Nat) (s : AggState) :
    (aggWrite true gn ⟨none, name, wk⟩ ⟨none, none⟩ s).entries = s.entries ++ [(name, [])] ∧
    (aggWrite false gn ⟨none, name, wk⟩ ⟨none, none⟩ s).entries
      = writeFile s.entries (gn ++ "/" ++ name) [] ∧
    (aggLoop true gn 1 [(⟨none, "x.jpg", wk⟩, ⟨none, none⟩)] AggState.init).entries
      = [("x.jpg", [])] ∧
    (aggLoop false gn 1 [(⟨none, "x.jpg", wk⟩, ⟨none, none⟩)] AggState.init).entries
      = [(gn ++ "/" ++ "x.jpg", [])] := by
  refine ⟨?_, ?_, ?_, ?_⟩
  · simp [aggWrite, sliceBytes]
  · simp [aggWrite, sliceBytes]
  · simp [aggLoop, aggIter, aggWrite, aggCheck, sliceBytes, AggState.init]
  · simp [aggLoop, aggIter, aggWrite, aggCheck, sliceBytes, AggState.init, writeFile]

/-- C4: in archive mode a Result whose `zipWriter.Create` fails ends the
aggregation loop with the nil-dereference panic: the error is printed, `count`
has advanced for this Result only, and none of the later Results is processed. -/
theorem create_error_aborts_loop (gn : String) (num_lst : Nat) (r : Result) (e : String)
    (w : Option String) (rest : List (Result × WriteOutcome)) (s : AggState) :
    aggLoop true gn num_lst ((r, ⟨some e, w⟩) :: rest) s =
      { s with count := s.count + 1, stdout := s.stdout ++ [printlnErr e],
               panic := some nilDeref } := by
  simp [aggLoop, aggIter, aggWrite]

/-- The archive-mode loop on two Results of which the first meets a failing
`zipWriter.Create`: the loop ends in the panic with `count = 1`, and the second
Result, whose image was fetched, is not written. -/
theorem create_error_example :
    aggLoop true "123" 2 [(failedResult, createFails), (goodResult, writeOk)] AggState.init
      = ⟨1, [], ["write 123.zip: no space left on device\n"], false, 0, some nilDeref⟩ ∧
    aggLoop true "123" 2 [(failedResult, writeOk), (goodResult, writeOk)] AggState.init
      = ⟨2, [("x.jpg", []), ("b.jpg", [7, 8])],
          ["[worker 0] downloaded x.jpg\n", "[worker 1] downloaded b.jpg\n"], true, 1, none⟩ := by
  constructor <;> decide

/-- C6: in compression mode, after `os.OpenFile` returned the handle `f`, the
tear-down closes the zip writer but leaves `f` open: the variable `archiveFile`
that is closed is the one of line 159, which is still nil. -/
theorem archive_file_left_open (f : Nat) :
    setupDest true (.ok f) = .ok ⟨none, some f, [f], false⟩ ∧
    finalizeDest true ⟨none, some f, [f], false⟩ = ⟨none, some f, [f], true⟩ ∧
    f ∈ (finalizeDest true ⟨none, some f, [f], false⟩).openFiles := by
  simp [setupDest, finalizeDest]

/-- C5: with an empty image list `main` panics at `img_lst[0]` (line 137): it
never reaches line 177, whatever the flags (with a gallery id) and the rest of
the environment are. -/
theorem empty_list_panics_before_pipeline (cfg : Config) (env : Env)
    (hid : cfg.Gallery_ID ≠ "") (hempty : env.img_lst = []) :
    mainStart cfg env = .panic indexOutOfRange := by
  simp [mainStart, hid, hempty, probePrefixes]

theorem empty_list_panics_before_pipeline_witness :
    cfgRetryZero.Gallery_ID ≠ "" ∧ envEmpty.img_lst = [] ∧
      mainStart cfgRetryZero envEmpty = .panic indexOutOfRange :=
  ⟨by decide, rfl, empty_list_panics_before_pipeline cfgRetryZero envEmpty (by decide) rfl⟩

/-! ## Properties of the pipeline -/

theorem sum_map_set (f : WState → Nat) (ws : List WState) (w : Nat) (old new : WState)
    (h : ws[w]? = some old) :
    ((ws.set w new).map f).sum + f old = (ws.map f).sum + f new := by
  induction ws generalizing w with
  | nil => simp at h
  | cons x rest ih =>
    cases w with
    | zero =>
      simp only [List.getElem?_cons_zero, Option.some.injEq] at h
      subst h
      simp only [List.set_cons_zero, List.map_cons, List.sum_cons]
      omega
    | succ w =>
      simp only [List.getElem?_cons_succ] at h
      have := ih w h
      simp only [List.set_cons_succ, List.map_cons, List.sum_cons]
      omega

theorem busy_replicate (n : Nat) :
    ((List.replicate n WState.waitJob).map WState.busy).sum = 0 := by
  induction n with
  | zero => rfl
  | succ n ih => simp only [List.replicate_succ, List.map_cons, List.sum_cons, ih]; rfl

theorem Inv_init (P : Params) : Inv P (PState.init P) := by
  refine ⟨?_, Nat.zero_le _, ?_, rfl, ?_, ?_, ?_, ?_, ?_, ?_, ?_⟩
  · show 0 + ((List.replicate P.NumWorkers WState.waitJob).map WState.busy).sum + 0 = 0
    rw [busy_replicate]
  · intro h; cases h
  · intro h; cases h
  · intro h; cases h
  · intro h; cases h
  · intro c hc; cases hc
  · intro h; cases h
  · intro x hx hxr
    have := List.eq_of_mem_replicate hx
    subst this
    rcases hxr with h | h <;> cases h
  · exact List.length_replicate _ _

theorem Inv_set (P : Params) (s : PState) (w : Nat) (old new : WState) (hI : Inv P s)
    (hw : s.workers[w]? = some old) (hb : new.busy = old.busy)
    (hd : (s.outClosed = true → new = WState.done))
    (hr : new = WState.returned ∨ new = WState.done → s.jobsClosed = true) :
    Inv P { s with workers := s.workers.set w new } := by
  have hsum := sum_map_set WState.busy s.workers w old new hw
  refine ⟨?_, hI.hnext, hI.hctrl, hI.hdrop, ?_, hI.hend, hI.hpanic, hI.hcalls, hI.hjobs, ?_, ?_⟩
  · have := hI.hcount
    show s.agg.count + ((s.workers.set w new).map WState.busy).sum + s.dropped.length = s.next
    omega
  · intro ho x hx
    rcases List.mem_or_eq_of_mem_set hx with h | h
    · exact hI.hout ho x h
    · rw [h]; exact hd ho
  · intro x hx hxr
    rcases List.mem_or_eq_of_mem_set hx with h | h
    · exact hI.hret x h hxr
    · rw [h] at hxr; exact hr hxr
  · show (s.workers.set w new).length = P.NumWorkers
    rw [List.length_set]; exact hI.hlen

theorem mem_of_getElem?_some (ws : List WState) (w : Nat) (x : WState)
    (h : ws[w]? = some x) : x ∈ ws :=
  List.mem_iff_getElem?.mpr ⟨w, h⟩

theorem busy_pos_of_holding (P : Params) (s : PState) (w : Nat) (x : WState) (hI : Inv P s)
    (hw : s.workers[w]? = some x) (hx : x.busy = 1) :
    s.agg.count < P.img_lst.length ∧ s.agg.ctrlClosed = false := by
  have hsum := sum_map_set WState.busy s.workers w x WState.waitJob hw
  have hc := hI.hcount
  have hn := hI.hnext
  have h0 : WState.waitJob.busy = 0 := rfl
  have hlt : s.agg.count < P.img_lst.length := by omega
  refine ⟨hlt, ?_⟩
  cases hcl : s.agg.ctrlClosed with
  | false => rfl
  | true => have := (hI.hctrl hcl).1; omega

theorem out_open_of_not_done (P : Params) (s : PState) (w : Nat) (x : WState) (hI : Inv P s)
    (hw : s.workers[w]? = some x) (hx : x ≠ WState.done) : s.outClosed = false := by
  cases ho : s.outClosed with
  | false => rfl
  | true => exact absurd (hI.hout ho x (mem_of_getElem?_some _ _ _ hw)) hx

theorem Inv_step (P : Params) (a : Action) (s s1 : PState) (hI : Inv P s)
    (h : step P a s = some s1) : Inv P s1 := by
  unfold step at h
  split at h
  · cases h
  · rename_i hpan
    have hpn : s.agg.panic = none := by
      cases hp : s.agg.panic with
      | none => rfl
      | some m => rw [hp] at hpan; exact absurd rfl hpan
    cases a with
    | handoff w =>
      simp only at h
      split at h
      · rename_i j hj hw
        cases h
        have hlt : s.next < P.img_lst.length := (List.getElem?_eq_some.mp hj).1
        have hsum := sum_map_set WState.busy s.workers w _ (WState.fetching j) hw
        have hb1 : (WState.fetching j).busy = 1 := rfl
        have hb0 : WState.waitJob.busy = 0 := rfl
        have ho := out_open_of_not_done P s w _ hI hw (by simp)
        refine ⟨?_, hlt, hI.hctrl, hI.hdrop, ?_, hI.hend, hI.hpanic, hI.hcalls, ?_, ?_, ?_⟩
        · have := hI.hcount
          show s.agg.count + ((s.workers.set w (WState.fetching j)).map WState.busy).sum
            + s.dropped.length = s.next + 1
          omega
        · intro h; rw [ho] at h; cases h
        · intro h; have := hI.hjobs h; omega
        · intro x hx hxr
          rcases List.mem_or_eq_of_mem_set hx with h | h
          · exact hI.hret x h hxr
          · rw [h] at hxr; rcases hxr with h | h <;> cases h
        · show (s.workers.set w (WState.fetching j)).length = P.NumWorkers
          rw [List.length_set]; exact hI.hlen
      · cases h
    | closeJobs =>
      simp only at h
      split at h
      · rename_i hc
        cases h
        simp only [Bool.and_eq_true, beq_iff_eq] at hc
        exact ⟨hI.hcount, hI.hnext, hI.hctrl, hI.hdrop, hI.hout, hI.hend, hI.hpanic, hI.hcalls,
          fun _ => hc.1, fun _ _ _ => rfl, hI.hlen⟩
      · cases h
    | jobsDone w =>
      simp only at h
      split at h
      · rename_i hw
        split at h
        · rename_i hj
          cases h
          have ho := out_open_of_not_done P s w _ hI hw (by simp)
          exact Inv_set P s w _ _ hI hw rfl (fun h => by rw [ho] at h; cases h) (fun _ => hj)
        · cases h
      · cases h
    | download w net =>
      simp only at h
      split at h
      · rename_i j hw
        cases h
        have ho := out_open_of_not_done P s w _ hI hw (by simp)
        have h2 := Inv_set P s w _
          (WState.selecting ⟨(DownloadImage (imageUrl P.imgPrefix P.cfg.Gallery_ID j)
            P.cfg.RetryLimit net).img, j, w⟩) hI hw rfl
          (fun h => by rw [ho] at h; cases h) (fun h => by rcases h with h | h <;> cases h)
        refine ⟨h2.hcount, h2.hnext, h2.hctrl, h2.hdrop, h2.hout, h2.hend, h2.hpanic, ?_,
          h2.hjobs, h2.hret, h2.hlen⟩
        intro c hc
        rcases List.mem_append.mp hc with h | h
        · exact hI.hcalls c h
        · rw [List.mem_singleton.mp h]
      · cases h
    | deliver w io =>
      simp only at h
      split at h
      · rename_i r hw hpc
        cases h
        have ho := out_open_of_not_done P s w _ hI hw (by simp)
        have hb := busy_pos_of_holding P s w _ hI hw rfl
        have hsum := sum_map_set WState.busy s.workers w _ WState.waitJob hw
        have hb1 : (WState.selecting r).busy = 1 := rfl
        have hb0 : WState.waitJob.busy = 0 := rfl
        have hcnt := aggWrite_count P.cfg.Do_Compression P.cfg.Gallery_Name r io s.agg
        have hcl := (aggWrite_ctrl P.cfg.Do_Compression P.cfg.Gallery_Name r io s.agg).1
        refine ⟨?_, hI.hnext, ?_, hI.hdrop, ?_, ?_, ?_, hI.hcalls, hI.hjobs, ?_, ?_⟩
        · have := hI.hcount
          show (aggWrite P.cfg.Do_Compression P.cfg.Gallery_Name r io s.agg).count
            + ((s.workers.set w WState.waitJob).map WState.busy).sum + s.dropped.length = s.next
          omega
        · intro h
          have h5 : (aggWrite P.cfg.Do_Compression P.cfg.Gallery_Name r io s.agg).ctrlClosed
              = true := h
          rw [hcl, hb.2] at h5; cases h5
        · intro h; rw [ho] at h; cases h
        · intro h; cases h
        · intro h
          have h5 : (aggWrite P.cfg.Do_Compression P.cfg.Gallery_Name r io s.agg).ctrlClosed
              = true := h
          rw [hcl, hb.2] at h5; cases h5
        · intro x hx hxr
          rcases List.mem_or_eq_of_mem_set hx with h | h
          · exact hI.hret x h hxr
          · rw [h] at hxr; rcases hxr with h | h <;> cases h
        · show (s.workers.set w WState.waitJob).length = P.NumWorkers
          rw [List.length_set]; exact hI.hlen
      · cases h
    | cancel w =>
      simp only at h
      split at h
      · rename_i r hw
        split at h
        · rename_i hc
          have hb := busy_pos_of_holding P s w _ hI hw rfl
          rw [hb.2] at hc; cases hc
        · cases h
      · cases h
    | wgDone w =>
      simp only at h
      split at h
      · rename_i hw
        cases h
        exact Inv_set P s w _ _ hI hw rfl (fun _ => rfl)
          (fun _ => hI.hret _ (mem_of_getElem?_some _ _ _ hw) (Or.inl rfl))
      · cases h
    | closeOut =>
      simp only at h
      split at h
      · rename_i hc
        cases h
        simp only [Bool.and_eq_true, List.all_eq_true] at hc
        refine ⟨hI.hcount, hI.hnext, hI.hctrl, hI.hdrop, ?_, fun _ => rfl, hI.hpanic,
          hI.hcalls, hI.hjobs, hI.hret, hI.hlen⟩
        intro _ x hx
        have := hc.1 x hx
        cases x <;> first | rfl | cases this
      · cases h
    | check =>
      simp only at h
      split at h
      · rename_i hpc
        cases h
        have hopen : s.agg.ctrlClosed = false := by
          cases hcl : s.agg.ctrlClosed with
          | false => rfl
          | true => exact absurd hpc (hI.hctrl hcl).2
        have hck : aggCheck P.img_lst.length s.agg = s.agg ∨
            (s.agg.count = P.img_lst.length ∧
              aggCheck P.img_lst.length s.agg =
                { s.agg with ctrlClosed := true, ctrlCloses := s.agg.ctrlCloses + 1 }) := by
          unfold aggCheck
          by_cases heq : s.agg.count = P.img_lst.length
          · right; simp [heq, hopen]
          · left; simp [heq]
        rcases hck with hck | ⟨heq, hck⟩
        · refine ⟨?_, hI.hnext, ?_, hI.hdrop, hI.hout, ?_, ?_, hI.hcalls, hI.hjobs, hI.hret,
            hI.hlen⟩
          · show (aggCheck P.img_lst.length s.agg).count + _ + _ = _
            rw [hck]; exact hI.hcount
          · intro h
            have h5 : (aggCheck P.img_lst.length s.agg).ctrlClosed = true := h
            rw [hck, hopen] at h5; cases h5
          · intro h; cases h
          · intro h
            have h5 : (aggCheck P.img_lst.length s.agg).ctrlClosed = true := h
            rw [hck, hopen] at h5; cases h5
        · refine ⟨?_, hI.hnext, ?_, hI.hdrop, hI.hout, ?_, ?_, hI.hcalls, hI.hjobs, hI.hret,
            hI.hlen⟩
          · show (aggCheck P.img_lst.length s.agg).count + _ + _ = _
            rw [hck]; exact hI.hcount
          · intro _
            refine ⟨?_, by simp⟩
            show (aggCheck P.img_lst.length s.agg).count = _
            rw [hck]; exact heq
          · intro h; cases h
          · intro _
            show (aggCheck P.img_lst.length s.agg).panic = none
            rw [hck]; exact hpn
      · cases h
    | loopEnd =>
      simp only at h
      split at h
      · rename_i hpc
        split at h
        · rename_i ho
          cases h
          exact ⟨hI.hcount, hI.hnext, fun h => ⟨(hI.hctrl h).1, by simp⟩, hI.hdrop, hI.hout,
            fun _ => ho, hI.hpanic, hI.hcalls, hI.hjobs, hI.hret, hI.hlen⟩
        · cases h
      · cases h

theorem Inv_of_reachable (P : Params) (s : PState) (h : Reachable P s) : Inv P s := by
  induction h with
  | init => exact Inv_init P
  | step a _ hs ih => exact Inv_step P a _ _ ih hs

theorem measure_step (P : Params) (a : Action) (s s1 : PState) (h : step P a s = some s1) :
    measure P s1 < measure P s := by
  unfold step at h
  split at h
  · cases h
  · cases a with
    | handoff w =>
      simp only at h
      split at h
      · rename_i j hj hw
        cases h
        have hlt : s.next < P.img_lst.length := (List.getElem?_eq_some.mp hj).1
        have hsum := sum_map_set wmeasure s.workers w _ (WState.fetching j) hw
        simp only [wmeasure] at hsum
        simp only [measure]
        omega
      · cases h
    | closeJobs =>
      simp only at h
      split at h
      · rename_i hc
        cases h
        simp only [Bool.and_eq_true, beq_iff_eq, Bool.not_eq_true'] at hc
        simp only [measure, hc.2]
        simp
      · cases h
    | jobsDone w =>
      simp only at h
      split at h
      · rename_i hw
        split at h
        · cases h
          have hsum := sum_map_set wmeasure s.workers w _ WState.returned hw
          simp only [wmeasure] at hsum
          simp only [measure]
          omega
        · cases h
      · cases h
    | download w net =>
      simp only at h
      split at h
      · rename_i j hw
        cases h
        have hsum := sum_map_set wmeasure s.workers w _
          (WState.selecting ⟨(DownloadImage (imageUrl P.imgPrefix P.cfg.Gallery_ID j)
            P.cfg.RetryLimit net).img, j, w⟩) hw
        simp only [wmeasure] at hsum
        simp only [measure]
        omega
      · cases h
    | deliver w io =>
      simp only at h
      split at h
      · rename_i r hw hpc
        cases h
        have hsum := sum_map_set wmeasure s.workers w _ WState.waitJob hw
        simp only [wmeasure] at hsum
        simp only [measure, hpc, pcmeasure]
        omega
      · cases h
    | cancel w =>
      simp only at h
      split at h
      · rename_i r hw
        split at h
        · cases h
          have hsum := sum_map_set wmeasure s.workers w _ WState.returned hw
          simp only [wmeasure] at hsum
          simp only [measure]
          omega
        · cases h
      · cases h
    | wgDone w =>
      simp only at h
      split at h
      · rename_i hw
        cases h
        have hsum := sum_map_set wmeasure s.workers w _ WState.done hw
        simp only [wmeasure] at hsum
        simp only [measure]
        omega
      · cases h
    | closeOut =>
      simp only at h
      split at h
      · rename_i hc
        cases h
        simp only [Bool.and_eq_true, Bool.not_eq_true'] at hc
        simp only [measure, hc.2]
        simp
      · cases h
    | check =>
      simp only at h
      split at h
      · rename_i hpc
        cases h
        simp only [measure, hpc, pcmeasure]
        omega
      · cases h
    | loopEnd =>
      simp only at h
      split at h
      · rename_i hpc
        split at h
        · cases h
          simp only [measure, hpc, pcmeasure]
          omega
        · cases h
      · cases h

theorem ctrlClosed_step (P : Params) (a : Action) (s s1 : PState) (hI : Inv P s)
    (h : step P a s = some s1) (hc : s.agg.ctrlClosed = true) : s1.agg.ctrlClosed = true := by
  have hnc : s.pc ≠ .checking := (hI.hctrl hc).2
  unfold step at h
  split at h
  · cases h
  · cases a with
    | deliver w io =>
      simp only at h
      split at h
      · rename_i r hw hpc
        have hb := busy_pos_of_holding P s w _ hI hw rfl
        rw [hb.2] at hc; cases hc
      · cases h
    | check =>
      simp only at h
      cases h
    | handoff w =>
      simp only at h
      split at h
      · cases h; exact hc
      · cases h
    | closeJobs =>
      simp only at h
      split at h
      · cases h; exact hc
      · cases h
    | jobsDone w =>
      simp only at h
      split at h
      · split at h
        · cases h; exact hc
        · cases h
      · cases h
    | download w net =>
      simp only at h
      split at h
      · cases h; exact hc
      · cases h
    | cancel w =>
      simp only at h
      split at h
      · cases h; exact hc
      · cases h
    | wgDone w =>
      simp only at h
      split at h
      · cases h; exact hc
      · cases h
    | closeOut =>
      simp only at h
      split at h
      · cases h; exact hc
      · cases h
    | loopEnd =>
      simp only at h
      split at h
      · split at h
        · cases h; exact hc
        · cases h
      · cases h

/-- A state of the pipeline in which `main` has not panicked and no step is
enabled is a state of orderly shutdown: nothing is blocked for ever. -/
theorem stuck_final (P : Params) (s : PState) (hI : Inv P s) (hpn : s.agg.panic = none)
    (hst : Stuck P s) : Final s := by
  have hall : ∀ x ∈ s.workers, x = WState.done := by
    intro x hx
    obtain ⟨w, hw⟩ := List.mem_iff_getElem?.mp hx
    cases x with
    | done => rfl
    | fetching j =>
      have := hst (.download w (fun _ => ⟨0, [], none⟩))
      simp [step, hpn, hw] at this
    | returned =>
      have := hst (.wgDone w)
      simp [step, hpn, hw] at this
    | selecting r =>
      cases hpc : s.pc with
      | receiving =>
        have := hst (.deliver w ⟨none, none⟩)
        simp [step, hpn, hw, hpc] at this
      | checking =>
        have := hst .check
        simp [step, hpn, hpc] at this
      | ended =>
        have := hI.hout (hI.hend hpc) _ hx
        cases this
    | waitJob =>
      cases hj : s.jobsClosed with
      | true =>
        have := hst (.jobsDone w)
        simp [step, hpn, hw, hj] at this
      | false =>
        by_cases hn : s.next < P.img_lst.length
        · have := hst (.handoff w)
          have hget : P.img_lst[s.next]? = some (P.img_lst[s.next]) :=
            List.getElem?_eq_getElem hn
          simp [step, hpn, hw, hget] at this
        · have := hst .closeJobs
          have hnx := hI.hnext
          have heq : s.next = P.img_lst.length := by omega
          simp [step, hpn, hj, heq] at this
  have hout : s.outClosed = true := by
    cases ho : s.outClosed with
    | true => rfl
    | false =>
      have := hst .closeOut
      have hd : s.workers.all WState.isDone = true := by
        rw [List.all_eq_true]
        intro x hx
        rw [hall x hx]; rfl
      simp [step, hpn, ho, hd] at this
  refine ⟨hall, hout, ?_, hpn⟩
  cases hpc : s.pc with
  | ended => rfl
  | receiving =>
    have := hst .loopEnd
    simp [step, hpn, hpc, hout] at this
  | checking =>
    have := hst .check
    simp [step, hpn, hpc] at this

theorem run_inv (P : Params) (acts : List Action) (s t : PState) (hI : Inv P s)
    (h : run P acts s = some t) : Inv P t := by
  induction acts generalizing s with
  | nil => simp only [run, Option.some.injEq] at h; rw [← h]; exact hI
  | cons a rest ih =>
    simp only [run] at h
    cases hs : step P a s with
    | none => rw [hs] at h; cases h
    | some u =>
      rw [hs] at h
      exact ih u (Inv_step P a s u hI hs) h

theorem run_ctrlClosed (P : Params) (acts : List Action) (s t : PState) (hI : Inv P s)
    (hc : s.agg.ctrlClosed = true) (h : run P acts s = some t) : t.agg.ctrlClosed = true := by
  induction acts generalizing s with
  | nil => simp only [run, Option.some.injEq] at h; rw [← h]; exact hc
  | cons a rest ih =>
    simp only [run] at h
    cases hs : step P a s with
    | none => rw [hs] at h; cases h
    | some u =>
      rw [hs] at h
      exact ih u (Inv_step P a s u hI hs) (ctrlClosed_step P a s u hI hs hc) h

theorem run_length_le (P : Params) (acts : List Action) (s t : PState)
    (h : run P acts s = some t) : acts.length + measure P t ≤ measure P s := by
  induction acts generalizing s with
  | nil => simp only [run, Option.some.injEq] at h; rw [← h]; simp
  | cons a rest ih =>
    simp only [run] at h
    cases hs : step P a s with
    | none => rw [hs] at h; cases h
    | some u =>
      rw [hs] at h
      have h1 := ih u h
      have h2 := measure_step P a s u hs
      simp only [List.length_cons]
      omega

theorem reachable_run (P : Params) (acts : List Action) (s t : PState) (hr : Reachable P s)
    (h : run P acts s = some t) : Reachable P t := by
  induction acts generalizing s with
  | nil => simp only [run, Option.some.injEq] at h; rw [← h]; exact hr
  | cons a rest ih =>
    simp only [run] at h
    cases hs : step P a s with
    | none => rw [hs] at h; cases h
    | some u =>
      rw [hs] at h
      exact ih u (Reachable.step a hr hs) h

/-- When the loop of `main` has ended in a pipeline with at least one worker,
`main` has received one Result for every item of the list. -/
theorem count_at_loop_end (P : Params) (s : PState) (hW : 1 ≤ P.NumWorkers)
    (hr : Reachable P s) (he : s.pc = .ended) :
    s.agg.count = P.img_lst.length ∧ s.dropped = [] := by
  have hI := Inv_of_reachable P s hr
  have hall := hI.hout (hI.hend he)
  have hlen := hI.hlen
  have hbusy : (s.workers.map WState.busy).sum = 0 := by
    have : ∀ ws : List WState, (∀ x ∈ ws, x = WState.done) → (ws.map WState.busy).sum = 0 := by
      intro ws
      induction ws with
      | nil => intro _; rfl
      | cons x rest ih =>
        intro h
        have hx := h x (List.mem_cons_self x rest)
        subst hx
        simp only [List.map_cons, List.sum_cons,
          ih (fun y hy => h y (List.mem_cons_of_mem _ hy))]
        rfl
    exact this _ hall
  have hjc : s.jobsClosed = true := by
    cases hws : s.workers with
    | nil => rw [hws] at hlen; simp at hlen; omega
    | cons x rest =>
      have hx : x ∈ s.workers := by rw [hws]; exact List.mem_cons_self x rest
      exact hI.hret x hx (Or.inr (hall x hx))
  have hn := hI.hjobs hjc
  have hc := hI.hcount
  have hd := hI.hdrop
  rw [hd] at hc
  simp only [List.length_nil] at hc
  exact ⟨by omega, hd⟩

/-! ## The pipeline on concrete inputs -/

theorem run_actsToClose :
    run paramsTwo actsToClose (PState.init paramsTwo) = some stateCancelled := by
  decide

theorem run_actsToEnd : run paramsTwo actsToEnd stateCancelled = some stateEnded := by
  decide

theorem run_retryZero :
    run paramsRetryZero [.handoff 0, .download 0 netAlways] (PState.init paramsRetryZero)
      = some stateRetryZero := by
  decide

theorem reachable_stateCancelled : Reachable paramsTwo stateCancelled :=
  reachable_run paramsTwo actsToClose _ _ Reachable.init run_actsToClose

theorem reachable_stateEnded : Reachable paramsTwo stateEnded :=
  reachable_run paramsTwo actsToEnd _ _ reachable_stateCancelled run_actsToEnd

theorem reachable_stateRetryZero : Reachable paramsRetryZero stateRetryZero :=
  reachable_run paramsRetryZero _ _ _ Reachable.init run_retryZero

theorem mainStart_retryZero :
    mainStart cfgRetryZero envOne
      = .pipeline paramsRetryZero ⟨none, some 3, [3], false⟩ := by
  rfl

/-! ## The claims about the pipeline -/

/-- From a state in which `ctrl` is closed the pipeline can run on to an orderly
shutdown. -/
theorem exists_run_to_final (P : Params) (s : PState) (hI : Inv P s)
    (hc : s.agg.ctrlClosed = true) : ∃ acts t, run P acts s = some t ∧ Final t := by
  have key : ∀ n (u : PState), measure P u < n → Inv P u → u.agg.ctrlClosed = true →
      ∃ acts t, run P acts u = some t ∧ Final t := by
    intro n
    induction n with
    | zero => intro u hu; omega
    | succ n ih =>
      intro u hu hIu hcu
      by_cases hst : Stuck P u
      · exact ⟨[], u, rfl, stuck_final P u hIu (hIu.hpanic hcu) hst⟩
      · unfold Stuck at hst
        rw [not_forall] at hst
        obtain ⟨a, ha⟩ := hst
        cases hs : step P a u with
        | none => exact absurd hs ha
        | some v =>
          have hm := measure_step P a u v hs
          obtain ⟨acts, t, hrun, hfin⟩ := ih v (by omega) (Inv_step P a u v hIu hs)
            (ctrlClosed_step P a u v hIu hs hcu)
          exact ⟨a :: acts, t, by simp only [run, hs, Option.bind_some]; exact hrun, hfin⟩
  exact key _ s (Nat.lt_succ_self _) hI hc

/-- C8: in every state the pipeline can reach in which `ctrl` is closed, `main`
has received a Result for every item and has not panicked; every sequence of
steps from there, in any interleaving, has at most `measure` steps, never
panics, and can only stop in a state where every worker has exited, `out` is
closed and the loop of `main` has ended; and such a state can be reached. -/
theorem shutdown_after_cancel (P : Params) (s : PState) (hr : Reachable P s)
    (hc : s.agg.ctrlClosed = true) :
    s.agg.count = P.img_lst.length ∧ s.agg.panic = none ∧
    (∀ acts t, run P acts s = some t →
      acts.length ≤ measure P s ∧ t.agg.panic = none ∧ (Stuck P t → Final t)) ∧
    (∃ acts t, run P acts s = some t ∧ Final t) := by
  have hI := Inv_of_reachable P s hr
  refine ⟨(hI.hctrl hc).1, hI.hpanic hc, ?_, exists_run_to_final P s hI hc⟩
  intro acts t hrun
  have hIt := run_inv P acts s t hI hrun
  have hct := run_ctrlClosed P acts s t hI hc hrun
  have hlen := run_length_le P acts s t hrun
  exact ⟨by omega, hIt.hpanic hct, stuck_final P t hIt (hIt.hpanic hct)⟩

theorem shutdown_after_cancel_witness :
    Reachable paramsTwo stateCancelled ∧ stateCancelled.agg.ctrlClosed = true ∧
      actsToEnd.length ≤ measure paramsTwo stateCancelled ∧ stateEnded.agg.panic = none :=
  ⟨reachable_stateCancelled, rfl,
    ((shutdown_after_cancel paramsTwo stateCancelled reachable_stateCancelled rfl).2.2.1
      actsToEnd stateEnded run_actsToEnd).1,
    ((shutdown_after_cancel paramsTwo stateCancelled reachable_stateCancelled rfl).2.2.1
      actsToEnd stateEnded run_actsToEnd).2.1⟩

/-- C9: in every state the pipeline can reach, no Result has been dropped and
the branch `case <-ctrl` is not enabled for any worker; when `ctrl` is closed,
`main` has received a Result for every item and no worker holds a job or a
Result. -/
theorem no_result_dropped (P : Params) (s : PState) (hr : Reachable P s) :
    s.dropped = [] ∧ (∀ w, step P (.cancel w) s = none) ∧
    (s.agg.ctrlClosed = true →
      s.agg.count = P.img_lst.length ∧
        ∀ x ∈ s.workers, (∀ j, x ≠ .fetching j) ∧ (∀ r, x ≠ .selecting r)) := by
  have hI := Inv_of_reachable P s hr
  refine ⟨hI.hdrop, ?_, ?_⟩
  · intro w
    cases hs : step P (.cancel w) s with
    | none => rfl
    | some u =>
      exfalso
      unfold step at hs
      split at hs
      · cases hs
      · simp only at hs
        split at hs
        · rename_i r hw
          have hb := busy_pos_of_holding P s w _ hI hw rfl
          rw [hb.2] at hs
          cases hs
        · cases hs
  · intro hc
    refine ⟨(hI.hctrl hc).1, ?_⟩
    intro x hx
    obtain ⟨w, hw⟩ := List.mem_iff_getElem?.mp hx
    constructor
    · intro j hj
      subst hj
      have hb := busy_pos_of_holding P s w _ hI hw rfl
      rw [hb.2] at hc; cases hc
    · intro r hj
      subst hj
      have hb := busy_pos_of_holding P s w _ hI hw rfl
      rw [hb.2] at hc; cases hc

theorem no_result_dropped_witness :
    Reachable paramsTwo stateEnded ∧ stateEnded.dropped = [] ∧
      stateEnded.agg.count = paramsTwo.img_lst.length :=
  ⟨reachable_stateEnded, (no_result_dropped paramsTwo stateEnded reachable_stateEnded).1,
    ((no_result_dropped paramsTwo stateEnded reachable_stateEnded).2.2 rfl).1⟩

theorem mainStart_RetryLimit (cfg : Config) (env : Env) (P : Params) (d : Dest)
    (h : mainStart cfg env = .pipeline P d) : P.cfg.RetryLimit = cfg.RetryLimit := by
  unfold mainStart at h
  split at h
  · cases h
  · simp only at h
    split at h
    · cases h
    · split at h
      · cases h
      · split at h
        · cases h
        · cases h
          show (if cfg.Gallery_Name == "" then { cfg with Gallery_Name := cfg.Gallery_ID }
            else cfg).RetryLimit = cfg.RetryLimit
          split <;> rfl

theorem DownloadImage_nonpos (url : String) (try_ : Int) (net : Nat → FetchOutcome)
    (h : try_ ≤ 0) : DownloadImage url try_ net = ⟨none, [failedMsg url], 0⟩ := by
  unfold DownloadImage
  rw [Int.toNat_eq_zero.mpr h]
  rfl

/-- The way `main` gets on to line 176 does not depend on the retry limit: with
another value of the flag it exits, panics or starts the pipeline just the same,
the pipeline getting the other value. -/
theorem mainStart_RetryLimit_indep (cfg : Config) (env : Env) (r : Int) :
    mainStart { cfg with RetryLimit := r } env = (mainStart cfg env).withRetryLimit r := by
  unfold mainStart
  simp only
  cases h1 : (cfg.Gallery_ID == "")
  · cases h2 : (cfg.Gallery_Name == "")
    · simp only [Bool.false_eq_true, if_false]
      cases probePrefixes env.get cfg.Gallery_ID env.img_lst ["aa", "ba", "g"] with
      | error msg => rfl
      | ok found =>
        simp only
        cases h3 : (found == "" && env.answer != "y")
        · simp only [Bool.false_eq_true, if_false]
          cases setupDest cfg.Do_Compression env.openFile with
          | error code => rfl
          | ok d => rfl
        · rfl
    · simp only [Bool.false_eq_true, if_false, if_true]
      cases probePrefixes env.get cfg.Gallery_ID env.img_lst ["aa", "ba", "g"] with
      | error msg => rfl
      | ok found =>
        simp only
        cases h3 : (found == "" && env.answer != "y")
        · simp only [Bool.false_eq_true, if_false]
          cases setupDest cfg.Do_Compression env.openFile with
          | error code => rfl
          | ok d => rfl
        · rfl
  · rfl

theorem step_download (P : Params) (s : PState) (w : Nat) (j : String)
    (net : Nat → FetchOutcome) (hw : s.workers[w]? = some (.fetching j))
    (hp : s.agg.panic = none) :
    step P (.download w net) s =
      some { s with
        workers := s.workers.set w (.selecting
          ⟨(DownloadImage (imageUrl P.imgPrefix P.cfg.Gallery_ID j) P.cfg.RetryLimit net).img,
            j, w⟩),
        signals := s.signals ++
          (DownloadImage (imageUrl P.imgPrefix P.cfg.Gallery_ID j) P.cfg.RetryLimit net).signal,
        calls := s.calls ++ [(imageUrl P.imgPrefix P.cfg.Gallery_ID j, P.cfg.RetryLimit)] } := by
  simp [step, hp, hw]

theorem C7_counterexample :
    mainStart cfgRetryZero envOne = .pipeline paramsRetryZero ⟨none, some 3, [3], false⟩ ∧
    run paramsRetryZero [.handoff 0, .download 0 netAlways] (PState.init paramsRetryZero)
      = some stateRetryZero ∧
    stateRetryZero.calls = [("https://aa.hitomi.la/galleries/123/x.jpg", 0)] ∧
    stateRetryZero.workers[0]? = some (.selecting ⟨none, "x.jpg", 0⟩) ∧
    stateRetryZero.signals = ["Download Failed: https://aa.hitomi.la/galleries/123/x.jpg"] ∧
    DownloadImage "https://aa.hitomi.la/galleries/123/x.jpg" 0 netAlways
      = ⟨none, ["Download Failed: https://aa.hitomi.la/galleries/123/x.jpg"], 0⟩ ∧
    DownloadImage "https://aa.hitomi.la/galleries/123/x.jpg" 1 netAlways = ⟨some [1], [], 1⟩ :=
  ⟨mainStart_retryZero, run_retryZero, rfl, rfl, rfl, by decide, by decide⟩

/-- C7 (amended): `main` does not look at the retry limit.  If it starts the
pipeline for one value of the flag it starts the same pipeline for every other
value `r`, zero and negative ones included, with `r` as the retry limit of the
pipeline.  The pipeline gets the value of the flag unchanged; every call of
`DownloadImage` in every reachable state gets `try` equal to it, and the Result
a worker goes on to deliver and the messages it sends are those of
`DownloadImage` with `try` equal to it.  With a value of 0 or less
`DownloadImage` makes no fetch, sends "Download Failed: url" and returns nil. -/
theorem retry_limit_not_checked (cfg : Config) (env : Env) (P : Params) (d : Dest)
    (s : PState) (hstart : mainStart cfg env = .pipeline P d) (hr : Reachable P s) :
    (∀ r : Int, mainStart { cfg with RetryLimit := r } env
      = .pipeline { P with cfg := { P.cfg with RetryLimit := r } } d) ∧
    P.cfg.RetryLimit = cfg.RetryLimit ∧
    (∀ c ∈ s.calls, c.2 = cfg.RetryLimit) ∧
    (∀ w j net, s.workers[w]? = some (.fetching j) → s.agg.panic = none →
      step P (.download w net) s =
        some { s with
          workers := s.workers.set w (.selecting
            ⟨(DownloadImage (imageUrl P.imgPrefix P.cfg.Gallery_ID j) cfg.RetryLimit net).img,
              j, w⟩),
          signals := s.signals ++
            (DownloadImage (imageUrl P.imgPrefix P.cfg.Gallery_ID j) cfg.RetryLimit net).signal,
          calls := s.calls ++ [(imageUrl P.imgPrefix P.cfg.Gallery_ID j, cfg.RetryLimit)] }) ∧
    (cfg.RetryLimit ≤ 0 → ∀ url net,
      DownloadImage url cfg.RetryLimit net = ⟨none, ["Download Failed: " ++ url], 0⟩) := by
  have heq := mainStart_RetryLimit cfg env P d hstart
  refine ⟨?_, heq, ?_, ?_, ?_⟩
  · intro r
    rw [mainStart_RetryLimit_indep, hstart]
    rfl
  · intro c hc
    rw [← heq]
    exact (Inv_of_reachable P s hr).hcalls c hc
  · intro w j net hw hp
    rw [← heq]
    exact step_download P s w j net hw hp
  · intro h url net
    exact DownloadImage_nonpos url _ net h

theorem retry_limit_not_checked_witness :
    mainStart cfgRetryZero envOne = .pipeline paramsRetryZero ⟨none, some 3, [3], false⟩ ∧
    Reachable paramsRetryZero stateRetryZero ∧
    mainStart { cfgRetryZero with RetryLimit := -1 } envOne
      = .pipeline { paramsRetryZero with cfg := { paramsRetryZero.cfg with RetryLimit := -1 } }
          ⟨none, some 3, [3], false⟩ ∧
    mainStart { cfgRetryZero with RetryLimit := 3 } envOne
      = .pipeline { paramsRetryZero with cfg := { paramsRetryZero.cfg with RetryLimit := 3 } }
          ⟨none, some 3, [3], false⟩ ∧
    (∀ c ∈ stateRetryZero.calls, c.2 = cfgRetryZero.RetryLimit) :=
  ⟨mainStart_retryZero, reachable_stateRetryZero,
    (retry_limit_not_checked cfgRetryZero envOne paramsRetryZero ⟨none, some 3, [3], false⟩
      stateRetryZero mainStart_retryZero reachable_stateRetryZero).1 (-1),
    (retry_limit_not_checked cfgRetryZero envOne paramsRetryZero ⟨none, some 3, [3], false⟩
      stateRetryZero mainStart_retryZero reachable_stateRetryZero).1 3,
    (retry_limit_not_checked cfgRetryZero envOne paramsRetryZero ⟨none, some 3, [3], false⟩
      stateRetryZero mainStart_retryZero reachable_stateRetryZero).2.2.1⟩

end GoHitomi
